import Mathlib

/-!
Shallow embedding of the radioscrapper backend core
(`backend/src/runner.ts`, the retry route of `backend/src/server.ts`,
and the in-process job queue) together with theorems about it.

Strings are modelled as Lean `String`/`List Char`; the JavaScript regex
character classes `\s` and `\w` are modelled over their ASCII content
(the transcripts and tokens the code processes are ASCII).  Wall-clock
timestamps that the code interpolates into log lines are abstracted away
(log lines keep their level tags and payload text).  External effects
(the stream recorder, the transcriber subprocess and the two OpenAI
HTTP calls) are modelled as explicit oracle values of `Except`/`Option`
type, and the database `updateRun` sparse-patch semantics of
`backend/src/db.ts` is modelled by an explicit patch structure.
-/

namespace RadioScrapper

/-- The sentinel for decoded fields (`UNKNOWN` in `runner.ts`). -/
def UNKNOWN : String := "UNKNOWN"

/-- ASCII whitespace, modelling the JavaScript `\s` class on ASCII text. -/
def wsChar (c : Char) : Bool :=
  c == ' ' || c == '\t' || c == '\n' || c == '\r' || c == '\x0b' || c == '\x0c'

/-- The JavaScript `\w` class (`[A-Za-z0-9_]`) used by `\b` boundaries. -/
def isWordChar (c : Char) : Bool :=
  c.isAlpha || c.isDigit || c == '_'

/-- ASCII alphanumeric, the class kept by `replace(/[^A-Za-z0-9]/g, '')`. -/
def isAlnum (c : Char) : Bool :=
  c.isAlpha || c.isDigit

/-- Split a character list into maximal runs of non-whitespace characters.
This models `s.trim() ? s.trim().split(/\s+/) : []` from `runner.ts`:
on any input it yields exactly the whitespace-delimited tokens, with no
empty tokens. -/
def splitWsAux (acc : List Char) : List Char → List (List Char)
  | [] => if acc.isEmpty then [] else [acc.reverse]
  | c :: cs =>
    if wsChar c then
      if acc.isEmpty then splitWsAux [] cs
      else acc.reverse :: splitWsAux [] cs
    else splitWsAux (c :: acc) cs

/-- The token list of a transcript (`transcript.trim().split(/\s+/)`). -/
def wordsOf (s : String) : List (List Char) :=
  splitWsAux [] s.data

/-- Match a literal character list as a prefix, returning the rest. -/
def litThen (lit : List Char) (cs : List Char) : Option (List Char) :=
  match lit, cs with
  | [], rest => some rest
  | _ :: _, [] => none
  | a :: as, b :: bs => if a == b then litThen as bs else none

/-- A `\b` word boundary holds after a word character at this remainder:
end of input or a non-word character. -/
def boundaryAfterOk : List Char → Bool
  | [] => true
  | c :: _ => !isWordChar c

/-- Does one of `stems`, followed by one of `sufs`, followed by a `\b`
boundary, match at the head of `cs`?  Models the alternation bodies of
the clue regexes in `extractScrambleContext`. -/
def stemSufMatchAt (stems : List (List Char)) (sufs : List (List Char)) (cs : List Char) : Bool :=
  stems.any fun stem =>
    match litThen stem cs with
    | none => false
    | some rest =>
      sufs.any fun suf =>
        match litThen suf rest with
        | none => false
        | some r2 => boundaryAfterOk r2

/-- Scan a token for a position with a `\b` boundary before it (previous
character non-word; all matched bodies start with a word character) where
the matcher `p` fires.  Models `pattern.test(word)`. -/
def scanToken (p : List Char → Bool) : Bool → List Char → Bool
  | _, [] => false
  | prevW, c :: rest => (!prevW && p (c :: rest)) || scanToken p (isWordChar c) rest

/-- Matcher for the body of `/\b(?:[a-zA-Z]-){2,}[a-zA-Z]\b/`:
`n` pairs `letter,-` have been consumed; the rest must supply further
pairs and a final letter followed by a boundary, with at least two pairs
in total. -/
def boundedChainOk : Nat → List Char → Bool
  | n, c :: rest =>
    (decide (2 ≤ n) && c.isAlpha && boundaryAfterOk rest) ||
    (match rest with
     | '-' :: rest2 => c.isAlpha && boundedChainOk (n + 1) rest2
     | _ => false)
  | _, [] => false

/-- Does a single token match one of the five clue patterns of
`extractScrambleContext`?  Patterns 1–4 carry the `i` flag, modelled by
lowercasing the token (its word/letter structure is case-invariant). -/
def tokenMatchesClue (w : List Char) : Bool :=
  let lw := w.map Char.toLower
  scanToken (stemSufMatchAt ["scrambl".data] ["e".data, "ed".data, "ing".data]) false lw ||
  scanToken
    (stemSufMatchAt ["descrambl".data, "de-scrambl".data, "de scrambl".data]
      [[], "e".data, "ed".data, "ing".data]) false lw ||
  scanToken (stemSufMatchAt ["unscrambl".data] [[], "e".data, "ed".data, "ing".data]) false lw ||
  scanToken (stemSufMatchAt ["keyword".data] [[]]) false lw ||
  scanToken (fun cs => boundedChainOk 0 cs) false lw

/-- Result of `extractScrambleContext`. -/
structure DecodeContext where
  snippet : String
  found : Bool
deriving Repr, DecidableEq

/-- Join tokens with single spaces (`words.slice(start, end).join(' ')`). -/
def joinSpace : List (List Char) → List Char
  | [] => []
  | [w] => w
  | w :: ws => w ++ ' ' :: joinSpace ws

/-- `extractScrambleContext` from `runner.ts`: tokenize, find the first
token matching a clue pattern, and return the window of 20 tokens on
either side of it rejoined with spaces. -/
def extractScrambleContext (transcript : String) : DecodeContext :=
  let ws := wordsOf transcript
  if ws.isEmpty then ⟨"", false⟩
  else
    match ws.findIdx? tokenMatchesClue with
    | none => ⟨"", false⟩
    | some i =>
      let start := i - 20
      let stop := min ws.length (i + 21)
      ⟨⟨joinSpace ((ws.drop start).take (stop - start))⟩, true⟩

/-- The separator class `[-\s]` of the hyphen-letters regex. -/
def isSep (c : Char) : Bool :=
  c == '-' || wsChar c

/-- Greedily parse repetitions of `(?:[-\s][A-Za-z])`, returning the
consumed (separator, letter) pairs and the remainder. -/
def chainPairs : List Char → List (Char × Char) × List Char
  | s :: c :: rest =>
    if isSep s && c.isAlpha then
      let (ps, r) := chainPairs rest
      ((s, c) :: ps, r)
    else ([], s :: c :: rest)
  | cs => ([], cs)

/-- Flatten (separator, letter) pairs back into their characters. -/
def pairsChars : List (Char × Char) → List Char
  | [] => []
  | (s, c) :: ps => s :: c :: pairsChars ps

/-- Attempt the body of `/\b([A-Za-z](?:[-\s][A-Za-z]){2,})\b/` at a
position whose first character is the letter `c`: greedy repetitions,
then the trailing `\b`; if the boundary fails after the maximal parse the
engine backtracks one repetition (after which the next character is the
dropped separator, hence a boundary), needing at least two repetitions. -/
def hyphenMatchAt (c : Char) (rest : List Char) : Option (List Char) :=
  let (ps, r) := chainPairs rest
  if decide (2 ≤ ps.length) && boundaryAfterOk r then
    some (c :: pairsChars ps)
  else if decide (3 ≤ ps.length) then
    some (c :: pairsChars ps.dropLast)
  else
    none

/-- Leftmost scan of the text for the hyphen-letters pattern, tracking
whether the previous character was a word character (for the leading
`\b`). -/
def scanExtract : Bool → List Char → Option (List Char)
  | _, [] => none
  | prevW, c :: rest =>
    match (if !prevW && c.isAlpha then hyphenMatchAt c rest else none) with
    | some g => some g
    | none => scanExtract (isWordChar c) rest

/-- `extractHyphenLetters` from `runner.ts`: first regex match of the
hyphen/space-separated letter chain, separators stripped, uppercased,
and `null` unless at least three letters remain. -/
def extractHyphenLetters (text : String) : Option String :=
  match scanExtract false text.data with
  | none => none
  | some g =>
    let letters := (g.filter Char.isAlpha).map Char.toUpper
    if decide (3 ≤ letters.length) then some ⟨letters⟩ else none

/-- `sortLetters` from `runner.ts`: `s.split('').sort().join('')` —
characters sorted ascending by code unit. -/
def sortLetters (s : String) : String :=
  ⟨List.insertionSort (· ≤ ·) s.data⟩

/-- The fixed AC/DC-related candidate word list of `localDecodeFromLetters`. -/
def candidates : List String :=
  ["ROSIE", "ANGUS", "ACDC", "HIGHWAY", "HELLS", "BELLS", "THUNDER",
   "BACK", "BLACK", "SHOOK", "TNT"]

/-- `localDecodeFromLetters` from `runner.ts`: compare the sorted-letter
key against each candidate's key; first hit uppercased, else `UNKNOWN`. -/
def localDecodeFromLetters (letters : String) : String :=
  let key := sortLetters letters
  match candidates.find? (fun w => sortLetters w == key) with
  | some hit => ⟨hit.data.map Char.toUpper⟩
  | none => UNKNOWN

/-- `toSingleWordUpper` from `runner.ts`: first whitespace-delimited
token, non-alphanumeric characters stripped, uppercased; `UNKNOWN` if
nothing remains. -/
def toSingleWordUpper (value : String) : String :=
  let first := (wordsOf value).headD []
  let single := (first.filter isAlnum).map Char.toUpper
  if single.isEmpty then UNKNOWN else ⟨single⟩

/-! ### JavaScript value and number model -/

/-- A JavaScript value as it can appear in a JSON field consumed by the
confidence normalization: a finite number, `NaN` (also standing for the
other non-finite numbers), a string, `null`, or `undefined` (absent). -/
inductive JSVal where
  | num (q : ℚ)
  | nan
  | str (s : String)
  | null
  | undef
deriving Repr, DecidableEq

/-- Drop ASCII whitespace from both ends (JavaScript `trim()` on ASCII). -/
def trimChars (cs : List Char) : List Char :=
  ((cs.dropWhile wsChar).reverse.dropWhile wsChar).reverse

/-- `trim()` as a `String` operation. -/
def trimS (s : String) : String :=
  ⟨trimChars s.data⟩

/-- ASCII uppercasing of a whole string (`toUpperCase()` on ASCII). -/
def asciiUpper (s : String) : String :=
  ⟨s.data.map Char.toUpper⟩

/-- Consume leading decimal digits, returning accumulated value, count
of digits consumed, and the remainder. -/
def parseDigitsAux (v : Nat) (n : Nat) : List Char → Nat × Nat × List Char
  | c :: cs =>
    if c.isDigit then parseDigitsAux (10 * v + (c.toNat - 48)) (n + 1) cs
    else (v, n, c :: cs)
  | [] => (v, n, [])

/-- Optional leading sign of a numeric literal. -/
def parseSignChars : List Char → ℚ × List Char
  | '+' :: cs => (1, cs)
  | '-' :: cs => (-1, cs)
  | cs => (1, cs)

/-- Mantissa of a decimal literal: `digits`, `digits.digits?`, or
`.digits`. -/
def parseMantissa (cs : List Char) : Option (ℚ × List Char) :=
  let (iv, icnt, r1) := parseDigitsAux 0 0 cs
  match r1 with
  | '.' :: r2 =>
    let (fv, fcnt, r3) := parseDigitsAux 0 0 r2
    if icnt = 0 && fcnt = 0 then none
    else some ((iv : ℚ) + (fv : ℚ) / (10 : ℚ) ^ fcnt, r3)
  | _ => if icnt = 0 then none else some ((iv : ℚ), r1)

/-- Optional exponent part `e`/`E` with optional sign and digits. -/
def parseExpPart : List Char → Option (Int × List Char)
  | c :: r1 =>
    if c == 'e' || c == 'E' then
      match r1 with
      | '+' :: r2 =>
        let (ev, ecnt, r3) := parseDigitsAux 0 0 r2
        if ecnt = 0 then none else some ((ev : Int), r3)
      | '-' :: r2 =>
        let (ev, ecnt, r3) := parseDigitsAux 0 0 r2
        if ecnt = 0 then none else some (-(ev : Int), r3)
      | r2 =>
        let (ev, ecnt, r3) := parseDigitsAux 0 0 r2
        if ecnt = 0 then none else some ((ev : Int), r3)
    else some (0, c :: r1)
  | [] => some (0, [])

/-- JavaScript `Number(string)` on decimal literals: trimmed empty
string is `0`; a signed decimal literal with optional exponent is its
value; anything else (such as `"abc"`) is not a finite number, modelled
as `none`. -/
def jsStringToNumber (s : String) : Option ℚ :=
  let cs := trimChars s.data
  if cs.isEmpty then some 0
  else
    let (sg, r0) := parseSignChars cs
    match parseMantissa r0 with
    | none => none
    | some (m, r1) =>
      match parseExpPart r1 with
      | none => none
      | some (e, r2) =>
        if r2.isEmpty then some (sg * m * (10 : ℚ) ^ e) else none

/-- JavaScript `Number(v)` restricted to finiteness: `some q` for a
finite result, `none` for `NaN`/non-finite. -/
def jsToNumber : JSVal → Option ℚ
  | .num q => some q
  | .nan => none
  | .null => some 0
  | .undef => none
  | .str s => jsStringToNumber s

/-- The `?? 0` nullish coalescing applied before `Number(...)`. -/
def nullishCoalesceZero : JSVal → JSVal
  | .null => .num 0
  | .undef => .num 0
  | v => v

/-- `Number.isFinite(conf) ? Math.max(0, Math.min(1, conf)) : 0` from
`analyzeExistingTranscript`. -/
def clampConfidence : Option ℚ → ℚ
  | some q => max 0 (min 1 q)
  | none => 0

/-- The whole confidence pipeline applied to a raw JSON field value:
`Number(parsed?.confidence_0_to_1 ?? 0)` in `analyzeTranscript` followed
by the finite-clamp in `analyzeExistingTranscript`. -/
def confidenceFromRaw (v : JSVal) : ℚ :=
  clampConfidence (jsToNumber (nullishCoalesceZero v))

/-! ### Remote decode client models -/

/-- The `DecodeResult` produced by `analyzeTranscript`; the confidence is
already a JavaScript number (`none` = non-finite). -/
structure DecodeResult where
  decoded_summary : String
  likely_acdc_reference : String
  confidence_0_to_1 : Option ℚ
deriving Repr, DecidableEq

/-- `DEFAULT_ANALYSIS` from `runner.ts`. -/
def DEFAULT_ANALYSIS : DecodeResult :=
  ⟨UNKNOWN, UNKNOWN, some 0⟩

/-- The raw JSON object a successful full-analysis response parses to;
fields may be absent. -/
structure RawDecode where
  decoded_summary : Option String
  likely_acdc_reference : Option String
  confidence_0_to_1 : JSVal
deriving Repr, DecidableEq

/-- The JavaScript `x || d` fallback on a possibly-absent string. -/
def jsOrElse (x : Option String) (d : String) : String :=
  match x with
  | none => d
  | some s => if s = "" then d else s

/-- `decodeSnippet` from `runner.ts` as a function of the HTTP outcome:
a non-ok response throws; missing or empty content yields `UNKNOWN`;
otherwise the content goes through `toSingleWordUpper`. -/
def decodeSnippetModel (resp : Except String (Option String)) : Except String String :=
  match resp with
  | .error e => .error ("OpenAI decode failed: " ++ e)
  | .ok none => .ok UNKNOWN
  | .ok (some content) =>
    .ok (if content = "" then UNKNOWN else toSingleWordUpper content)

/-- `analyzeTranscript` from `runner.ts` as a function of the HTTP
outcome: a non-ok response throws; missing content or a JSON parse
failure yields the defaults; otherwise each field is normalized
(`x || UNKNOWN` then `toSingleWordUpper`, and `Number(x ?? 0)`). -/
def analyzeTranscriptModel (resp : Except String (Option RawDecode)) :
    Except String DecodeResult :=
  match resp with
  | .error e => .error ("OpenAI decode failed: " ++ e)
  | .ok none => .ok DEFAULT_ANALYSIS
  | .ok (some p) =>
    .ok
      ⟨toSingleWordUpper (jsOrElse p.decoded_summary UNKNOWN),
       toSingleWordUpper (jsOrElse p.likely_acdc_reference UNKNOWN),
       jsToNumber (nullishCoalesceZero p.confidence_0_to_1)⟩

/-- Outcomes of the two OpenAI calls, fixed ahead of a run. -/
structure RemoteOracles where
  snippetResp : Except String (Option String)
  analysisResp : Except String (Option RawDecode)
deriving Repr

/-! ### Run analysis orchestrator -/

/-- Result of `analyzeExistingTranscript`. -/
structure AnalysisResult where
  decodedSummary : String
  likely : String
  confidence : ℚ
  errorNote : Option String
  analysisLogs : List String
deriving Repr, DecidableEq

/-- Render a boolean the way template interpolation does. -/
def boolStr (b : Bool) : String :=
  if b then "true" else "false"

/-- The soft error note set when a scramble is found but no key is set. -/
def missingKeyNote : String :=
  "Scramble detected but OPENAI_API_KEY is not set (or empty after trim); OpenAI decode skipped."

/-- `errorNote ? errorNote + " | " + m : m`. -/
def appendNote (n : Option String) (m : String) : Option String :=
  match n with
  | some s => some (s ++ " | " ++ m)
  | none => some m

/-- Render an optional rational for a log line (`NaN` when non-finite). -/
def confStr : Option ℚ → String
  | some q => toString q
  | none => "NaN"

/-- `analyzeExistingTranscript` from `runner.ts`.  `apiKey` is the truth
value of `config.openAiApiKey` (key present and non-empty); the two
remote calls are read from the oracles only on the paths that perform
them. -/
def analyzeExistingTranscript (apiKey : Bool) (o : RemoteOracles) (transcript : String) :
    AnalysisResult :=
  let context := extractScrambleContext transcript
  let logs0 := ["Scramble context found: " ++ boolStr context.found]
  let st1 : String × List String :=
    if context.found then
      match extractHyphenLetters context.snippet with
      | some letters =>
        let d := localDecodeFromLetters letters
        (d, logs0 ++ ["Local letter decode candidate=" ++ d ++ " from letters=" ++ letters])
      | none => (UNKNOWN, logs0 ++ ["No hyphen-letter pattern found for local decode."])
    else (UNKNOWN, logs0)
  let dec1 := st1.1
  let logs1 := st1.2
  let st2 : Option String × List String :=
    if context.found && !apiKey then
      (some missingKeyNote, logs1 ++ ["OpenAI decode skipped because OPENAI_API_KEY is missing."])
    else (none, logs1)
  let note1 := st2.1
  let logs2 := st2.2
  let st3 : String × Option String × List String :=
    if context.found && apiKey then
      match decodeSnippetModel o.snippetResp with
      | .ok v =>
        let d := if v = "" then dec1 else v
        (d, note1, logs2 ++ ["OpenAI snippet decode returned " ++ d ++ "."])
      | .error msg =>
        (dec1, some ("OpenAI decode failed; using local fallback if available. " ++ msg),
         logs2 ++ ["OpenAI snippet decode failed: " ++ msg])
    else (dec1, note1, logs2)
  let dec2 := st3.1
  let note2 := st3.2.1
  let logs3 := st3.2.2
  let st4 : DecodeResult × Option String × List String :=
    if context.found && apiKey then
      match analyzeTranscriptModel o.analysisResp with
      | .ok a =>
        (a, note2,
         logs3 ++ ["OpenAI full analysis likely=" ++ a.likely_acdc_reference ++
                   " confidence=" ++ confStr a.confidence_0_to_1])
      | .error msg =>
        (DEFAULT_ANALYSIS, appendNote note2 ("OpenAI analysis failed. " ++ msg),
         logs3 ++ ["OpenAI full analysis failed: " ++ msg])
    else (DEFAULT_ANALYSIS, note2, logs3)
  let analysis := st4.1
  let note3 := st4.2.1
  let logs4 := st4.2.2
  let decodedSummary := toSingleWordUpper dec2
  let likely := toSingleWordUpper (jsOrElse (some analysis.likely_acdc_reference) UNKNOWN)
  let confidence := clampConfidence analysis.confidence_0_to_1
  let logsF := logs4 ++
    ["Final normalized values decoded_summary=" ++ decodedSummary ++
     ", likely=" ++ likely ++ ", confidence=" ++ toString confidence]
  ⟨decodedSummary, likely, confidence, note3, logsF⟩

/-! ### Run records, sparse patches and the run executor -/

/-- One row of the `runs` table. -/
structure RunRecord where
  id : String
  created_at_utc : String
  status : String
  duration_seconds : Int
  transcript : Option String
  decoded_summary : Option String
  likely_acdc_reference : Option String
  confidence : Option ℚ
  error : Option String
  run_logs : Option String
deriving Repr, DecidableEq

/-- A sparse `updateRun` patch (`db.ts` writes only the provided
fields; `error` may be explicitly set to `null`). -/
structure RunPatch where
  status : Option String
  transcript : Option String
  decoded_summary : Option String
  likely_acdc_reference : Option String
  confidence : Option ℚ
  error : Option (Option String)
  run_logs : Option String
deriving Repr, DecidableEq

/-- Apply a sparse patch to a row: provided fields overwrite, absent
fields are untouched; `id`, `created_at_utc` and `duration_seconds` are
never part of a patch in this codebase. -/
def applyPatch (r : RunRecord) (p : RunPatch) : RunRecord :=
  ⟨r.id, r.created_at_utc,
   (match p.status with | some v => v | none => r.status),
   r.duration_seconds,
   (match p.transcript with | some v => some v | none => r.transcript),
   (match p.decoded_summary with | some v => some v | none => r.decoded_summary),
   (match p.likely_acdc_reference with | some v => some v | none => r.likely_acdc_reference),
   (match p.confidence with | some v => some v | none => r.confidence),
   (match p.error with | some v => v | none => r.error),
   (match p.run_logs with | some v => some v | none => r.run_logs)⟩

/-- Append a line to the run logger's buffer, keeping the last 400
lines (timestamps are abstracted; the level tag is kept). -/
def loggerAppend (logs : List String) (line : String) : List String :=
  let l := logs ++ [line]
  if decide (400 < l.length) then l.drop (l.length - 400) else l

/-- Join buffered log lines the way `flushToDb` does. -/
def joinLines (logs : List String) : String :=
  String.intercalate "\n" logs

/-- Outcomes of the external stages of one run, fixed ahead of time:
the recorder (`recordAudio`), the transcriber (`transcribe`), and the
analysis-stage inputs. -/
structure RunOracles where
  recorder : Except String Unit
  transcriber : Except String String
  apiKey : Bool
  remote : RemoteOracles
deriving Repr

/-- The `catch` branch of `executeRun`: log the failure, persist
`status = failed` with the stringified exception, flush logs. -/
def runFail (r : RunRecord) (logs : List String) (e : String) : RunRecord :=
  let logs2 := loggerAppend logs ("[ERROR] Run failed: " ++ e)
  let r2 := applyPatch r ⟨some "failed", none, none, none, none, some (some e), none⟩
  applyPatch r2 ⟨none, none, none, none, none, none, some (joinLines logs2)⟩

/-- `executeRun` from `runner.ts` as a state transformation of the
run's row, driven by the stage oracles. -/
def executeRun (o : RunOracles) (r0 : RunRecord) : RunRecord :=
  let logs0 := loggerAppend [] "[INFO] Run started."
  let r1 := applyPatch r0 ⟨some "running", none, none, none, none, none, some ""⟩
  let logs1 := loggerAppend logs0 "[INFO] Recording audio from stream."
  match o.recorder with
  | .error e => runFail r1 logs1 e
  | .ok _ =>
    let logs2 := loggerAppend (loggerAppend logs1 "[INFO] Recording completed.")
      "[INFO] Starting transcription."
    match o.transcriber with
    | .error e => runFail r1 logs2 e
    | .ok transcript =>
      let logs3 := loggerAppend (loggerAppend logs2 "[INFO] Transcription completed.")
        "[INFO] Starting transcript analysis."
      let a := analyzeExistingTranscript o.apiKey o.remote transcript
      let logs4 := a.analysisLogs.foldl (fun ls l => loggerAppend ls ("[INFO] " ++ l)) logs3
      let r2 := applyPatch r1
        ⟨some "done", some transcript, some a.decodedSummary, some a.likely,
         some a.confidence, some a.errorNote, none⟩
      let logs5 :=
        if a.likely = "" || a.likely == UNKNOWN then
          loggerAppend logs4
            "[ERROR] Final likely AC/DC reference is UNKNOWN. Retry may help if transcript quality is poor."
        else logs4
      let logs6 := loggerAppend logs5 "[INFO] Run finished."
      applyPatch r2 ⟨none, none, none, none, none, none, some (joinLines logs6)⟩

/-! ### The retry route -/

/-- The HTTP response side of the retry route: the (possibly updated)
row, and the error response if the request was rejected. -/
structure RetryResponse where
  record : Option RunRecord
  errorResp : Option (Nat × String)
deriving Repr, DecidableEq

/-- The diagnostic appended by retry when the final likely reference is
still the sentinel. -/
def retryUnknownMsg : String :=
  "Retry completed but final likely AC/DC reference is still UNKNOWN. Check transcript/logs and consider increasing recording duration or improving source audio quality."

/-- `[a, b].filter(Boolean).join('\n')`. -/
def joinNonEmptyLines (parts : List String) : String :=
  String.intercalate "\n" (parts.filter (fun s => s ≠ ""))

/-- The `POST /runs/:id/retry` handler of `server.ts` as a function of
the stored row: reject 404 when the run is missing, 400 when its trimmed
transcript is empty (both without touching the row); otherwise re-run
only the analysis stage against the stored transcript and patch the row
in place, appending the retry log lines after the trimmed existing
logs.  The handler's own catch branch is unreachable here because the
modelled analysis never throws. -/
def retryRun (apiKey : Bool) (o : RemoteOracles) (run? : Option RunRecord) : RetryResponse :=
  match run? with
  | none => ⟨none, some (404, "Run not found")⟩
  | some run =>
    let transcript := trimS (run.transcript.getD "")
    if transcript = "" then ⟨some run, some (400, "Cannot retry without transcript")⟩
    else
      let r1 := applyPatch run ⟨some "running", none, none, none, none, none, none⟩
      let a := analyzeExistingTranscript apiKey o transcript
      let retry1 := "[RETRY] Manual retry requested." ::
        a.analysisLogs.map (fun l => "[RETRY] " ++ l)
      let isUnk := asciiUpper (trimS a.likely) = UNKNOWN
      let finalError := if isUnk then appendNote a.errorNote retryUnknownMsg else a.errorNote
      let retry2 := if isUnk then retry1 ++ ["[RETRY] " ++ retryUnknownMsg] else retry1
      let newLogs := joinNonEmptyLines
        [trimS (run.run_logs.getD ""), String.intercalate "\n" retry2]
      let r2 := applyPatch r1
        ⟨some "done", none, some a.decodedSummary, some a.likely,
         some a.confidence, some finalError, some newLogs⟩
      ⟨some r2, none⟩

/-! ### The in-process job queue -/

/-- Observable events of `InProcessQueue`: a task is enqueued
(`enqueue` pushes it and kicks), a task is started (`kick` shifts the
head when nothing is running), a task settles (the `finally` block,
whether the promise resolved or rejected, clears `running` and kicks
again). -/
inductive QEvent (τ : Type) where
  | enq (t : τ)
  | start (t : τ)
  | finish (t : τ)
deriving Repr, DecidableEq

/-- The queue's mutable state: the pending array and the `running`
flag, which also remembers which task is in flight. -/
structure QState (τ : Type) where
  pending : List τ
  running : Option τ
deriving Repr, DecidableEq

/-- The initial state of a freshly constructed queue. -/
def qInit {τ : Type} : QState τ :=
  ⟨[], none⟩

/-- One step of the queue: `start` is only enabled when nothing is
running and the task is the head of the pending array (`shift`), and
`finish` only for the running task — exactly the guards the class's
`running` flag and `shift` enforce. -/
def qStep {τ : Type} [DecidableEq τ] (s : QState τ) : QEvent τ → Option (QState τ)
  | .enq t => some ⟨s.pending ++ [t], s.running⟩
  | .start t =>
    match s.running, s.pending with
    | none, t0 :: rest => if t0 = t then some ⟨rest, some t⟩ else none
    | _, _ => none
  | .finish t =>
    match s.running with
    | some t0 => if t0 = t then some ⟨s.pending, none⟩ else none
    | none => none

/-- Run a sequence of events from a state; `none` if some event was not
enabled. -/
def qExec {τ : Type} [DecidableEq τ] (s : QState τ) : List (QEvent τ) → Option (QState τ)
  | [] => some s
  | e :: es =>
    match qStep s e with
    | some s2 => qExec s2 es
    | none => none

/-- The tasks enqueued along a trace, in order. -/
def enqueuedTasks {τ : Type} (tr : List (QEvent τ)) : List τ :=
  tr.filterMap fun e => match e with | .enq t => some t | _ => none

/-- The tasks started along a trace, in order. -/
def startedTasks {τ : Type} (tr : List (QEvent τ)) : List τ :=
  tr.filterMap fun e => match e with | .start t => some t | _ => none

/-- The tasks finished along a trace, in order. -/
def finishedTasks {τ : Type} (tr : List (QEvent τ)) : List τ :=
  tr.filterMap fun e => match e with | .finish t => some t | _ => none

/-! ### The hyphen-letters regex versus the spec's "run of letters" -/

/-- All pairs are (separator, letter). -/
def validPairs (ps : List (Char × Char)) : Prop :=
  ∀ p ∈ ps, isSep p.1 = true ∧ p.2.isAlpha = true

/-- Boundary before a match position: previous character (the last of
`pre`, or the virtual previous character when `pre` is empty) is not a
word character. -/
def boundaryLeftOk (prevW : Bool) (pre : List Char) : Bool :=
  match pre.getLast? with
  | none => !prevW
  | some x => !isWordChar x

/-- A decomposition of `cs` witnessing, at position `p`, a run of at
least three single letters separated by hyphens or spaces with word
boundaries on both sides — the spec-side reading of the regex
`/\b([A-Za-z](?:[-\s][A-Za-z]){2,})\b/`. -/
def SpecRunAt (cs : List Char) (p : Nat) (grp : List Char) : Prop :=
  ∃ (pre post : List Char) (c : Char) (ps : List (Char × Char)),
    cs = pre ++ grp ++ post ∧ pre.length = p ∧
    grp = c :: pairsChars ps ∧ c.isAlpha = true ∧ 2 ≤ ps.length ∧ validPairs ps ∧
    boundaryLeftOk false pre = true ∧ boundaryAfterOk post = true

/-! ### Sample fixtures for witnesses -/

/-- A failed run with a stored transcript and prior logs. -/
def sampleFailedRun : RunRecord :=
  ⟨"run-1", "2024-01-01T00:00:00Z", "failed", 240,
   some "the keyword today is T-N-T", none, none, none, some "boom", some "old line"⟩

/-- A done run whose transcript trims to the empty string. -/
def sampleNoTranscriptRun : RunRecord :=
  ⟨"run-2", "2024-01-01T00:00:00Z", "done", 240, some "   ", none, none, none, none, none⟩

/-- A freshly queued run with all result fields null. -/
def sampleQueuedRun : RunRecord :=
  ⟨"run-3", "2024-01-01T00:00:00Z", "queued", 240, none, none, none, none, none, none⟩

/-- Remote oracles whose successful responses carry no content. -/
def oracleEmpty : RemoteOracles := ⟨.ok none, .ok none⟩

/-! ### Character-level lemmas -/

theorem char_eq_iff_toNat (c d : Char) : c = d ↔ c.toNat = d.toNat := by
  constructor
  · intro h; rw [h]
  · intro h; exact Char.ext (UInt32.ext h)

theorem char_toNat_ofNat {n : Nat} (h : n < 55296) : (Char.ofNat n).toNat = n := by
  have hv : n.isValidChar := Or.inl h
  rw [Char.ofNat, dif_pos hv]
  rfl

theorem isUpper_iff (c : Char) : c.isUpper = true ↔ 65 ≤ c.toNat ∧ c.toNat ≤ 90 := by
  simp [Char.isUpper]
  exact Iff.rfl

theorem isLower_iff (c : Char) : c.isLower = true ↔ 97 ≤ c.toNat ∧ c.toNat ≤ 122 := by
  simp [Char.isLower]
  exact Iff.rfl

theorem isAlpha_iff (c : Char) :
    c.isAlpha = true ↔ (65 ≤ c.toNat ∧ c.toNat ≤ 90) ∨ (97 ≤ c.toNat ∧ c.toNat ≤ 122) := by
  simp [Char.isAlpha, isUpper_iff c, isLower_iff c]

theorem isDigit_iff (c : Char) : c.isDigit = true ↔ 48 ≤ c.toNat ∧ c.toNat ≤ 57 := by
  simp [Char.isDigit]
  exact Iff.rfl

theorem wsChar_iff (c : Char) :
    wsChar c = true ↔
      c.toNat = 32 ∨ c.toNat = 9 ∨ c.toNat = 10 ∨ c.toNat = 13 ∨ c.toNat = 11 ∨ c.toNat = 12 := by
  simp only [wsChar, Bool.or_eq_true, beq_iff_eq]
  rw [char_eq_iff_toNat c ' ', char_eq_iff_toNat c '\t', char_eq_iff_toNat c '\n',
    char_eq_iff_toNat c '\r', char_eq_iff_toNat c '\x0b', char_eq_iff_toNat c '\x0c']
  have e1 : ' '.toNat = 32 := rfl
  have e2 : '\t'.toNat = 9 := rfl
  have e3 : '\n'.toNat = 10 := rfl
  have e4 : '\r'.toNat = 13 := rfl
  have e5 : '\x0b'.toNat = 11 := rfl
  have e6 : '\x0c'.toNat = 12 := rfl
  rw [e1, e2, e3, e4, e5, e6]
  tauto

theorem isWordChar_iff (c : Char) :
    isWordChar c = true ↔
      (65 ≤ c.toNat ∧ c.toNat ≤ 90) ∨ (97 ≤ c.toNat ∧ c.toNat ≤ 122) ∨
      (48 ≤ c.toNat ∧ c.toNat ≤ 57) ∨ c.toNat = 95 := by
  simp only [isWordChar, Bool.or_eq_true, beq_iff_eq, isAlpha_iff c, isDigit_iff c,
    char_eq_iff_toNat c '_']
  have e : '_'.toNat = 95 := rfl
  rw [e]
  tauto

theorem isAlnum_iff (c : Char) :
    isAlnum c = true ↔
      (65 ≤ c.toNat ∧ c.toNat ≤ 90) ∨ (97 ≤ c.toNat ∧ c.toNat ≤ 122) ∨
      (48 ≤ c.toNat ∧ c.toNat ≤ 57) := by
  simp only [isAlnum, Bool.or_eq_true, isAlpha_iff c, isDigit_iff c]
  constructor
  · rintro ((h | h) | h) <;> omega
  · rintro (h | h | h) <;> omega

theorem isSep_iff (c : Char) :
    isSep c = true ↔
      c.toNat = 45 ∨ c.toNat = 32 ∨ c.toNat = 9 ∨ c.toNat = 10 ∨ c.toNat = 13 ∨
      c.toNat = 11 ∨ c.toNat = 12 := by
  simp only [isSep, Bool.or_eq_true, beq_iff_eq, char_eq_iff_toNat c '-', wsChar_iff c]
  exact Iff.rfl

theorem toNat_toUpper (c : Char) :
    (Char.toUpper c).toNat = if 97 ≤ c.toNat ∧ c.toNat ≤ 122 then c.toNat - 32 else c.toNat := by
  by_cases h : 97 ≤ c.toNat ∧ c.toNat ≤ 122
  · rw [if_pos h]
    rw [Char.toUpper]
    simp only [ge_iff_le]
    rw [if_pos ⟨h.1, h.2⟩]
    exact char_toNat_ofNat (by omega)
  · rw [if_neg h]
    rw [Char.toUpper]
    simp only [ge_iff_le]
    rw [if_neg ?hh]
    intro hc
    exact h ⟨hc.1, hc.2⟩

theorem toUpper_toUpper (c : Char) : Char.toUpper (Char.toUpper c) = Char.toUpper c := by
  rw [char_eq_iff_toNat, toNat_toUpper, toNat_toUpper]
  split_ifs <;> omega

theorem alnum_not_ws {c : Char} (h : isAlnum c = true) : wsChar c = false := by
  rw [isAlnum_iff] at h
  cases hw : wsChar c
  · rfl
  · rw [wsChar_iff] at hw
    omega

theorem alnum_toUpper {c : Char} (h : isAlnum c = true) : isAlnum (Char.toUpper c) = true := by
  rw [isAlnum_iff] at h ⊢
  rw [toNat_toUpper]
  split_ifs <;> omega

theorem alpha_toUpper {c : Char} (h : c.isAlpha = true) : (Char.toUpper c).isAlpha = true := by
  rw [isAlpha_iff] at h ⊢
  rw [toNat_toUpper]
  split_ifs <;> omega

theorem sep_not_word {c : Char} (h : isSep c = true) : isWordChar c = false := by
  rw [isSep_iff] at h
  cases hw : isWordChar c
  · rfl
  · rw [isWordChar_iff] at hw
    omega

theorem alpha_not_sep {c : Char} (h : c.isAlpha = true) : isSep c = false := by
  rw [isAlpha_iff] at h
  cases hs : isSep c
  · rfl
  · rw [isSep_iff] at hs
    omega

theorem sep_not_alpha {c : Char} (h : isSep c = true) : c.isAlpha = false := by
  rw [isSep_iff] at h
  cases ha : c.isAlpha
  · rfl
  · rw [isAlpha_iff] at ha
    omega

theorem alpha_word {c : Char} (h : c.isAlpha = true) : isWordChar c = true := by
  rw [isAlpha_iff] at h
  rw [isWordChar_iff]
  omega

/-! ### List and string helper lemmas -/

theorem splitWsAux_no_ws (l : List Char) (acc : List Char)
    (h : ∀ c ∈ l, wsChar c = false) :
    splitWsAux acc l = if (acc.reverse ++ l).isEmpty then [] else [acc.reverse ++ l] := by
  induction l generalizing acc with
  | nil => simp [splitWsAux]
  | cons c cs ih =>
    have hc : wsChar c = false := h c (by simp)
    rw [splitWsAux, hc]
    simp only [Bool.false_eq_true, if_false]
    rw [ih (c :: acc) (fun d hd => h d (by simp [hd]))]
    simp [List.isEmpty_iff]

theorem string_mk_ne_empty {l : List Char} (h : l ≠ []) : (⟨l⟩ : String) ≠ "" := by
  intro heq
  apply h
  have : (⟨l⟩ : String).data = ("" : String).data := by rw [heq]
  simpa using this

theorem toSingleWordUpper_ne_empty (s : String) : toSingleWordUpper s ≠ "" := by
  unfold toSingleWordUpper
  by_cases h : ((((wordsOf s).headD []).filter isAlnum).map Char.toUpper) = []
  · simp only [h, List.isEmpty_nil, if_true]
    decide
  · simp only [List.isEmpty_iff, h, if_false]
    exact string_mk_ne_empty h

theorem toSingleWordUpper_idem (s : String) :
    toSingleWordUpper (toSingleWordUpper s) = toSingleWordUpper s := by
  by_cases h : ((((wordsOf s).headD []).filter isAlnum).map Char.toUpper) = []
  · have hs : toSingleWordUpper s = UNKNOWN := by
      unfold toSingleWordUpper
      simp only [h, List.isEmpty_nil, if_true]
    rw [hs]
    decide
  · have hs : toSingleWordUpper s = ⟨(((wordsOf s).headD []).filter isAlnum).map Char.toUpper⟩ := by
      unfold toSingleWordUpper
      simp only [List.isEmpty_iff, h, if_false]
    rw [hs]
    set single := (((wordsOf s).headD []).filter isAlnum).map Char.toUpper with hsingle
    have halnum : ∀ c ∈ single, isAlnum c = true := by
      intro c hcmem
      rw [hsingle] at hcmem
      obtain ⟨d, hd, rfl⟩ := List.mem_map.mp hcmem
      exact alnum_toUpper (List.mem_filter.mp hd).2
    have hws : ∀ c ∈ single, wsChar c = false := fun c hcm => alnum_not_ws (halnum c hcm)
    have hwords : wordsOf ⟨single⟩ = [single] := by
      unfold wordsOf
      rw [splitWsAux_no_ws single [] hws]
      simp [List.isEmpty_iff, h]
    have hfilter : single.filter isAlnum = single := List.filter_eq_self.mpr halnum
    have hmap : single.map Char.toUpper = single := by
      rw [hsingle, List.map_map]
      exact List.map_congr_left fun c _ => toUpper_toUpper c
    unfold toSingleWordUpper
    rw [hwords]
    simp only [List.headD_cons, hfilter, hmap, List.isEmpty_iff, h, if_false]

theorem intercalate_pair (a b : String) :
    String.intercalate "\n" [a, b] = a ++ "\n" ++ b := by
  simp [String.intercalate, String.intercalate.go]

theorem joinNonEmptyLines_pair (old added : String) (h : added ≠ "") :
    joinNonEmptyLines [old, added] = if old = "" then added else old ++ "\n" ++ added := by
  unfold joinNonEmptyLines
  rcases eq_or_ne old "" with ho | ho
  · subst ho
    simp [List.filter_cons, h, String.intercalate, String.intercalate.go]
  · simp [List.filter_cons, ho, h, String.intercalate, String.intercalate.go]

theorem clampConfidence_bounds (x : Option ℚ) :
    0 ≤ clampConfidence x ∧ clampConfidence x ≤ 1 := by
  cases x with
  | none => constructor <;> simp [clampConfidence]
  | some q =>
    refine ⟨le_max_left 0 _, max_le (by norm_num) (min_le_left 1 q)⟩

theorem analyze_confidence_clamped (k : Bool) (o : RemoteOracles) (t : String) :
    ∃ x, (analyzeExistingTranscript k o t).confidence = clampConfidence x :=
  ⟨_, rfl⟩

/-! ### Claim theorems -/

/-- C8: the confidence normalization in analysis maps every input to [0,1]:
-0.3 normalizes to 0, 1.7 to 1, NaN to 0, the non-numeric string "abc" to 0,
and 0.42 stays 0.42; any value whose `Number` conversion is non-finite
defaults to 0, and the confidence of every analysis result is clamped to
[0,1]. -/
theorem claim_C8_confidence_clamp :
    (∀ v : JSVal, 0 ≤ confidenceFromRaw v ∧ confidenceFromRaw v ≤ 1) ∧
    confidenceFromRaw (.num (-(3 : ℚ)/10)) = 0 ∧
    confidenceFromRaw (.num ((17 : ℚ)/10)) = 1 ∧
    confidenceFromRaw .nan = 0 ∧
    confidenceFromRaw (.str "abc") = 0 ∧
    confidenceFromRaw (.num ((42 : ℚ)/100)) = (42 : ℚ)/100 ∧
    (∀ v : JSVal, jsToNumber v = none → confidenceFromRaw v = 0) ∧
    (∀ (k : Bool) (o : RemoteOracles) (t : String),
      0 ≤ (analyzeExistingTranscript k o t).confidence ∧
      (analyzeExistingTranscript k o t).confidence ≤ 1) := by
  refine ⟨fun v => clampConfidence_bounds _, ?_, ?_, rfl, rfl, ?_, ?_, ?_⟩
  · show max 0 (min 1 (-(3 : ℚ)/10)) = 0
    norm_num
  · show max 0 (min 1 ((17 : ℚ)/10)) = 1
    norm_num
  · show max 0 (min 1 ((42 : ℚ)/100)) = (42 : ℚ)/100
    norm_num
  · intro v hv
    cases v <;> simp_all [confidenceFromRaw, nullishCoalesceZero, jsToNumber, clampConfidence]
  · intro k o t
    obtain ⟨x, hx⟩ := analyze_confidence_clamped k o t
    rw [hx]
    exact clampConfidence_bounds x

/-- C8 witness: the non-finite branch applied at `NaN`. -/
theorem claim_C8_confidence_clamp_witness :
    jsToNumber .nan = none ∧ confidenceFromRaw .nan = 0 :=
  ⟨rfl, claim_C8_confidence_clamp.2.2.2.2.2.2.1 .nan rfl⟩

/-- C1: if the Recorder or the Transcriber stage throws, executeRun ends with
status "failed" and error equal to the stringified exception, leaves the
transcript and decoded fields untouched (so a null transcript stays null),
and never consults the analysis stage: the result does not depend on the
analysis oracles (nor, for a Recorder failure, on the Transcriber). -/
theorem claim_C1_executor_stage_failure :
    ∀ (r0 : RunRecord) (e : String) (tr tr' : Except String String)
      (k k' : Bool) (rm rm' : RemoteOracles),
      ((executeRun ⟨.error e, tr, k, rm⟩ r0).status = "failed" ∧
       (executeRun ⟨.error e, tr, k, rm⟩ r0).error = some e ∧
       (executeRun ⟨.error e, tr, k, rm⟩ r0).transcript = r0.transcript ∧
       (executeRun ⟨.error e, tr, k, rm⟩ r0).decoded_summary = r0.decoded_summary ∧
       (executeRun ⟨.error e, tr, k, rm⟩ r0).likely_acdc_reference = r0.likely_acdc_reference ∧
       (executeRun ⟨.error e, tr, k, rm⟩ r0).confidence = r0.confidence ∧
       executeRun ⟨.error e, tr', k', rm'⟩ r0 = executeRun ⟨.error e, tr, k, rm⟩ r0) ∧
      ((executeRun ⟨.ok (), .error e, k, rm⟩ r0).status = "failed" ∧
       (executeRun ⟨.ok (), .error e, k, rm⟩ r0).error = some e ∧
       (executeRun ⟨.ok (), .error e, k, rm⟩ r0).transcript = r0.transcript ∧
       (executeRun ⟨.ok (), .error e, k, rm⟩ r0).decoded_summary = r0.decoded_summary ∧
       (executeRun ⟨.ok (), .error e, k, rm⟩ r0).likely_acdc_reference = r0.likely_acdc_reference ∧
       (executeRun ⟨.ok (), .error e, k, rm⟩ r0).confidence = r0.confidence ∧
       executeRun ⟨.ok (), .error e, k', rm'⟩ r0 = executeRun ⟨.ok (), .error e, k, rm⟩ r0) := by
  intro r0 e tr tr' k k' rm rm'
  exact ⟨⟨rfl, rfl, rfl, rfl, rfl, rfl, rfl⟩, ⟨rfl, rfl, rfl, rfl, rfl, rfl, rfl⟩⟩

/-- C10: retry's only preconditions are that the run exists and has a
non-empty trimmed transcript: missing run → 404, empty transcript → 400
without mutating the record; otherwise it completes with no error response
and status "done", regardless of the run's prior status — in particular a
failed run with a stored transcript moves to done. -/
theorem claim_C10_retry_preconditions :
    ∀ (k : Bool) (o : RemoteOracles),
      retryRun k o none = ⟨none, some (404, "Run not found")⟩ ∧
      (∀ r : RunRecord, trimS (r.transcript.getD "") = "" →
        retryRun k o (some r) = ⟨some r, some (400, "Cannot retry without transcript")⟩) ∧
      (∀ r : RunRecord, trimS (r.transcript.getD "") ≠ "" →
        (retryRun k o (some r)).errorResp = none ∧
        ∃ u, (retryRun k o (some r)).record = some u ∧ u.status = "done") := by
  intro k o
  refine ⟨rfl, ?_, ?_⟩
  · intro r h
    simp only [retryRun]
    rw [if_pos h]
  · intro r h
    simp only [retryRun]
    rw [if_neg h]
    exact ⟨rfl, ⟨_, rfl, rfl⟩⟩

/-- C10 witness: a failed run with transcript retries to done; a run whose
transcript trims to empty is rejected with 400 and left unchanged. -/
theorem claim_C10_retry_preconditions_witness :
    trimS (sampleFailedRun.transcript.getD "") ≠ "" ∧
    sampleFailedRun.status = "failed" ∧
    (retryRun false oracleEmpty (some sampleFailedRun)).errorResp = none ∧
    (∃ u, (retryRun false oracleEmpty (some sampleFailedRun)).record = some u ∧
      u.status = "done") ∧
    trimS (sampleNoTranscriptRun.transcript.getD "") = "" ∧
    retryRun false oracleEmpty (some sampleNoTranscriptRun) =
      ⟨some sampleNoTranscriptRun, some (400, "Cannot retry without transcript")⟩ := by
  have h1 := (claim_C10_retry_preconditions false oracleEmpty).2.2 sampleFailedRun (by decide)
  have h2 := (claim_C10_retry_preconditions false oracleEmpty).2.1 sampleNoTranscriptRun (by decide)
  exact ⟨by decide, rfl, h1.1, h1.2, by decide, h2⟩

theorem sortChars_eq_of_perm {l1 l2 : List Char} (h : List.Perm l1 l2) :
    List.insertionSort (fun a b : Char => a ≤ b) l1 =
      List.insertionSort (fun a b : Char => a ≤ b) l2 :=
  List.eq_of_perm_of_sorted
    ((List.perm_insertionSort _ l1).trans (h.trans (List.perm_insertionSort _ l2).symm))
    (List.sorted_insertionSort _ l1) (List.sorted_insertionSort _ l2)

/-- C6: localDecodeFromLetters is anagram-insensitive: any input whose
character multiset (permutation class) matches a candidate resolves to that
candidate, and any input matching no candidate resolves to UNKNOWN. -/
theorem claim_C6_local_decode_anagram :
    (∀ (s c : String), c ∈ candidates → List.Perm s.data c.data →
      localDecodeFromLetters s = c) ∧
    (∀ s : String, (∀ c ∈ candidates, ¬ List.Perm s.data c.data) →
      localDecodeFromLetters s = UNKNOWN) := by
  constructor
  · intro s c hc hp
    have hkey : sortLetters s = sortLetters c :=
      congrArg String.mk (sortChars_eq_of_perm hp)
    simp only [localDecodeFromLetters]
    rw [hkey]
    simp only [candidates, List.mem_cons, List.mem_singleton, List.not_mem_nil, or_false] at hc
    rcases hc with rfl | rfl | rfl | rfl | rfl | rfl | rfl | rfl | rfl | rfl | rfl <;> decide
  · intro s h
    simp only [localDecodeFromLetters]
    cases hf : candidates.find? (fun w => sortLetters w == sortLetters s) with
    | none => rfl
    | some hit =>
      exfalso
      have hmem : hit ∈ candidates := List.mem_of_find?_eq_some hf
      have hpred := List.find?_some hf
      have hkeys : sortLetters hit = sortLetters s := by simpa using hpred
      have hdata : List.insertionSort (fun a b : Char => a ≤ b) hit.data =
          List.insertionSort (fun a b : Char => a ≤ b) s.data := by
        have hd := congrArg String.data hkeys
        simpa [sortLetters] using hd
      have h1 : List.Perm s.data (List.insertionSort (fun a b : Char => a ≤ b) s.data) :=
        (List.perm_insertionSort _ _).symm
      have h2 : List.Perm (List.insertionSort (fun a b : Char => a ≤ b) s.data) hit.data := by
        rw [← hdata]
        exact List.perm_insertionSort _ _
      exact h hit hmem (h1.trans h2)

/-- C6 witness: "EIRSO" and "ROSIE" both resolve to "ROSIE"; "QQQ" (no
candidate anagram) resolves to UNKNOWN. -/
theorem claim_C6_local_decode_anagram_witness :
    "ROSIE" ∈ candidates ∧ List.Perm "EIRSO".data "ROSIE".data ∧
    localDecodeFromLetters "EIRSO" = "ROSIE" ∧
    localDecodeFromLetters "ROSIE" = "ROSIE" ∧
    (∀ c ∈ candidates, ¬ List.Perm "QQQ".data c.data) ∧
    localDecodeFromLetters "QQQ" = UNKNOWN :=
  ⟨by decide, by decide,
   claim_C6_local_decode_anagram.1 "EIRSO" "ROSIE" (by decide) (by decide),
   claim_C6_local_decode_anagram.1 "ROSIE" "ROSIE" (by decide) (by decide),
   by decide,
   claim_C6_local_decode_anagram.2 "QQQ" (by decide)⟩

/-- C4: for a transcript in which no token matches any clue pattern, the
extractor returns found=false with an empty snippet, and analysis returns
all defaults with a null error note — for any key configuration and any
remote oracles — and a run over such a transcript completes as done with a
null error. -/
theorem claim_C4_no_clue_defaults :
    ∀ (t : String),
      (∀ w ∈ wordsOf t, tokenMatchesClue w = false) →
      extractScrambleContext t = ⟨"", false⟩ ∧
      (∀ (k : Bool) (o : RemoteOracles),
        (analyzeExistingTranscript k o t).decodedSummary = UNKNOWN ∧
        (analyzeExistingTranscript k o t).likely = UNKNOWN ∧
        (analyzeExistingTranscript k o t).confidence = 0 ∧
        (analyzeExistingTranscript k o t).errorNote = none ∧
        ∀ (r0 : RunRecord),
          (executeRun ⟨.ok (), .ok t, k, o⟩ r0).status = "done" ∧
          (executeRun ⟨.ok (), .ok t, k, o⟩ r0).error = none) := by
  intro t h
  have hctx : extractScrambleContext t = ⟨"", false⟩ := by
    simp only [extractScrambleContext]
    rw [List.findIdx?_eq_none_iff.mpr h]
    split <;> rfl
  refine ⟨hctx, ?_⟩
  intro k o
  have hA : analyzeExistingTranscript k o t =
      ⟨UNKNOWN, UNKNOWN, 0, none,
       ["Scramble context found: false",
        "Final normalized values decoded_summary=UNKNOWN, likely=UNKNOWN, confidence=0"]⟩ := by
    unfold analyzeExistingTranscript
    rw [hctx]
    cases k <;> rfl
  refine ⟨by rw [hA], by rw [hA], by rw [hA], by rw [hA], ?_⟩
  intro r0
  refine ⟨rfl, ?_⟩
  have herr : (executeRun ⟨.ok (), .ok t, k, o⟩ r0).error =
      (analyzeExistingTranscript k o t).errorNote := rfl
  rw [herr, hA]

/-- C4 witness: a concrete clueless transcript. -/
theorem claim_C4_no_clue_defaults_witness :
    (∀ w ∈ wordsOf "and now the weather with sunshine", tokenMatchesClue w = false) ∧
    extractScrambleContext "and now the weather with sunshine" = ⟨"", false⟩ ∧
    (analyzeExistingTranscript true oracleEmpty "and now the weather with sunshine").decodedSummary = UNKNOWN ∧
    (analyzeExistingTranscript true oracleEmpty "and now the weather with sunshine").likely = UNKNOWN ∧
    (analyzeExistingTranscript true oracleEmpty "and now the weather with sunshine").confidence = 0 ∧
    (analyzeExistingTranscript true oracleEmpty "and now the weather with sunshine").errorNote = none ∧
    (executeRun ⟨.ok (), .ok "and now the weather with sunshine", true, oracleEmpty⟩
      sampleQueuedRun).status = "done" ∧
    (executeRun ⟨.ok (), .ok "and now the weather with sunshine", true, oracleEmpty⟩
      sampleQueuedRun).error = none := by
  have h := claim_C4_no_clue_defaults "and now the weather with sunshine" (by decide)
  have h2 := h.2 true oracleEmpty
  exact ⟨by decide, h.1, h2.1, h2.2.1, h2.2.2.1, h2.2.2.2.1,
    (h2.2.2.2.2 sampleQueuedRun).1, (h2.2.2.2.2 sampleQueuedRun).2⟩

theorem toSingleWordUpper_localDecode (l : String) :
    toSingleWordUpper (localDecodeFromLetters l) = localDecodeFromLetters l := by
  simp only [localDecodeFromLetters]
  cases hf : candidates.find? (fun w => sortLetters w == sortLetters l) with
  | none => decide
  | some hit =>
    have hmem : hit ∈ candidates := List.mem_of_find?_eq_some hf
    simp only [candidates, List.mem_cons, List.mem_singleton, List.not_mem_nil, or_false] at hmem
    rcases hmem with rfl | rfl | rfl | rfl | rfl | rfl | rfl | rfl | rfl | rfl | rfl <;> decide

/-- C2: when a transcript contains a scramble clue and no decode credential
is configured, analysis skips all remote calls (the result is independent of
the remote oracles), the decoded summary equals the local resolver's result
on the extracted letters (UNKNOWN when no letters extract), the likely
reference stays UNKNOWN, the soft error note names the missing credential,
and a run over such a transcript still completes as done. -/
theorem claim_C2_missing_key_local_decode :
    ∀ (t : String) (o o' : RemoteOracles),
      (extractScrambleContext t).found = true →
      (analyzeExistingTranscript false o t).errorNote = some missingKeyNote ∧
      (analyzeExistingTranscript false o t).likely = UNKNOWN ∧
      (analyzeExistingTranscript false o t).decodedSummary =
        (match extractHyphenLetters (extractScrambleContext t).snippet with
         | some l => localDecodeFromLetters l
         | none => UNKNOWN) ∧
      analyzeExistingTranscript false o' t = analyzeExistingTranscript false o t ∧
      (∀ r0 : RunRecord,
        (executeRun ⟨.ok (), .ok t, false, o⟩ r0).status = "done" ∧
        (executeRun ⟨.ok (), .ok t, false, o⟩ r0).error = some missingKeyNote) := by
  intro t o o' hfound
  cases hctx : extractScrambleContext t with
  | mk sn fd =>
    rw [hctx] at hfound
    change fd = true at hfound
    subst hfound
    have e1 : (analyzeExistingTranscript false o t).errorNote = some missingKeyNote := by
      simp only [analyzeExistingTranscript, hctx, Bool.and_false, Bool.and_true, Bool.not_false,
        Bool.false_eq_true, if_false, if_true]
    have e2 : (analyzeExistingTranscript false o t).likely = UNKNOWN := by
      simp only [analyzeExistingTranscript, hctx, Bool.and_false, Bool.and_true, Bool.not_false,
        Bool.false_eq_true, if_false, if_true]
      rfl
    have e3 : (analyzeExistingTranscript false o t).decodedSummary =
        (match extractHyphenLetters (DecodeContext.mk sn true).snippet with
         | some l => localDecodeFromLetters l
         | none => UNKNOWN) := by
      cases hl : extractHyphenLetters sn with
      | some l =>
        simp only [analyzeExistingTranscript, hctx, hl, Bool.and_false, Bool.and_true,
          Bool.not_false, Bool.false_eq_true, if_false, if_true]
        exact toSingleWordUpper_localDecode l
      | none =>
        simp only [analyzeExistingTranscript, hctx, hl, Bool.and_false, Bool.and_true,
          Bool.not_false, Bool.false_eq_true, if_false, if_true]
        rfl
    have e4 : analyzeExistingTranscript false o' t = analyzeExistingTranscript false o t := by
      simp only [analyzeExistingTranscript, hctx, Bool.and_false, Bool.and_true, Bool.not_false,
        Bool.false_eq_true, if_false, if_true]
    refine ⟨e1, e2, e3, e4, ?_⟩
    intro r0
    have herr : (executeRun ⟨.ok (), .ok t, false, o⟩ r0).error =
        (analyzeExistingTranscript false o t).errorNote := rfl
    exact ⟨rfl, by rw [herr, e1]⟩

/-- C2 witness: the TNT and ROSIE scenarios from the spec, with no key. -/
theorem claim_C2_missing_key_local_decode_witness :
    (extractScrambleContext "the keyword today is T-N-T").found = true ∧
    (analyzeExistingTranscript false oracleEmpty "the keyword today is T-N-T").decodedSummary = "TNT" ∧
    (analyzeExistingTranscript false oracleEmpty "the keyword today is T-N-T").likely = UNKNOWN ∧
    (analyzeExistingTranscript false oracleEmpty "the keyword today is T-N-T").errorNote =
      some missingKeyNote ∧
    (extractScrambleContext "please unscramble S-O-I-E-R right now").found = true ∧
    (analyzeExistingTranscript false oracleEmpty "please unscramble S-O-I-E-R right now").decodedSummary = "ROSIE" ∧
    (executeRun ⟨.ok (), .ok "the keyword today is T-N-T", false, oracleEmpty⟩
      sampleQueuedRun).status = "done" := by
  have h1 := claim_C2_missing_key_local_decode "the keyword today is T-N-T"
    oracleEmpty oracleEmpty (by decide)
  have h2 := claim_C2_missing_key_local_decode "please unscramble S-O-I-E-R right now"
    oracleEmpty oracleEmpty (by decide)
  exact ⟨by decide, h1.2.2.1.trans (by decide), h1.2.1, h1.1, by decide,
    h2.2.2.1.trans (by decide), (h1.2.2.2.2 sampleQueuedRun).1⟩

theorem string_eq_empty_of_data {x : String} (h : x.data = []) : x = "" := by
  cases x with
  | mk d =>
    cases h
    rfl

theorem intercalate_go_prefix (s : String) :
    ∀ (l : List String) (acc : String), ∃ t, String.intercalate.go acc s l = acc ++ t := by
  intro l
  induction l with
  | nil =>
    intro acc
    exact ⟨"", by simp [String.intercalate.go]⟩
  | cons a as ih =>
    intro acc
    obtain ⟨t, ht⟩ := ih (acc ++ s ++ a)
    refine ⟨s ++ a ++ t, ?_⟩
    rw [String.intercalate.go, ht]
    simp [String.append_assoc]

theorem intercalate_cons_ne_empty {x : String} (hx : x ≠ "") (s : String) (rest : List String) :
    String.intercalate s (x :: rest) ≠ "" := by
  obtain ⟨t, ht⟩ := intercalate_go_prefix s rest x
  rw [String.intercalate, ht]
  intro hemp
  have hd : (x ++ t).data = [] := congrArg String.data hemp
  rw [String.data_append] at hd
  exact hx (string_eq_empty_of_data (List.append_eq_nil.mp hd).1)

/-- C5: retry re-executes only the analysis stage against the stored
transcript and patches the row in place: status, the decoded fields,
confidence and error are set from the analysis result while id,
created_at, duration_seconds and the transcript are unchanged, and
run_logs becomes the trimmed existing log text with the non-empty retry
log text appended after it (appended, not replaced); retry on a run whose
transcript is missing or trims to empty is rejected without mutating the
record. -/
theorem claim_C5_retry_frame :
    (∀ (old added : String), added ≠ "" →
      joinNonEmptyLines [old, added] = if old = "" then added else old ++ "\n" ++ added) ∧
    ∀ (k : Bool) (o : RemoteOracles) (r : RunRecord),
      (trimS (r.transcript.getD "") = "" →
        retryRun k o (some r) = ⟨some r, some (400, "Cannot retry without transcript")⟩) ∧
      (trimS (r.transcript.getD "") ≠ "" →
        (let a := analyzeExistingTranscript k o (trimS (r.transcript.getD ""))
         let retry1 := "[RETRY] Manual retry requested." ::
           a.analysisLogs.map (fun l => "[RETRY] " ++ l)
         let isUnk := asciiUpper (trimS a.likely) = UNKNOWN
         let retryText := String.intercalate "\n"
           (if isUnk then retry1 ++ ["[RETRY] " ++ retryUnknownMsg] else retry1)
         retryText ≠ "" ∧
         retryRun k o (some r) =
           ⟨some { r with
              status := "done"
              decoded_summary := some a.decodedSummary
              likely_acdc_reference := some a.likely
              confidence := some a.confidence
              error := if isUnk then appendNote a.errorNote retryUnknownMsg else a.errorNote
              run_logs := some (if trimS (r.run_logs.getD "") = "" then retryText
                else trimS (r.run_logs.getD "") ++ "\n" ++ retryText) },
            none⟩)) := by
  refine ⟨joinNonEmptyLines_pair, ?_⟩
  intro k o r
  constructor
  · intro h
    simp only [retryRun]
    rw [if_pos h]
  · intro h
    have hne : String.intercalate "\n"
        (if asciiUpper (trimS (analyzeExistingTranscript k o (trimS (r.transcript.getD ""))).likely) = UNKNOWN
         then ("[RETRY] Manual retry requested." ::
           (analyzeExistingTranscript k o (trimS (r.transcript.getD ""))).analysisLogs.map
             (fun l => "[RETRY] " ++ l)) ++ ["[RETRY] " ++ retryUnknownMsg]
         else "[RETRY] Manual retry requested." ::
           (analyzeExistingTranscript k o (trimS (r.transcript.getD ""))).analysisLogs.map
             (fun l => "[RETRY] " ++ l)) ≠ "" := by
      split
      · exact intercalate_cons_ne_empty (by decide) _ _
      · exact intercalate_cons_ne_empty (by decide) _ _
    refine ⟨hne, ?_⟩
    simp only [retryRun]
    rw [if_neg h]
    simp only [applyPatch]
    rw [← joinNonEmptyLines_pair (trimS (r.run_logs.getD "")) _ hne]

/-- C5 witness: retrying the sample failed run keeps id, transcript and
duration, sets status done, and appends to its logs. -/
theorem claim_C5_retry_frame_witness :
    joinNonEmptyLines ["old", "new"] = "old" ++ "\n" ++ "new" ∧
    trimS (sampleFailedRun.transcript.getD "") ≠ "" ∧
    ∃ u, (retryRun false oracleEmpty (some sampleFailedRun)).record = some u ∧
      u.id = sampleFailedRun.id ∧
      u.created_at_utc = sampleFailedRun.created_at_utc ∧
      u.transcript = sampleFailedRun.transcript ∧
      u.duration_seconds = sampleFailedRun.duration_seconds ∧
      u.status = "done" := by
  have h1 := claim_C5_retry_frame.1 "old" "new" (by decide)
  rw [if_neg (by decide : ¬("old" : String) = "")] at h1
  have h2 := (claim_C5_retry_frame.2 false oracleEmpty sampleFailedRun).2 (by decide)
  have hrec := congrArg RetryResponse.record h2.2
  exact ⟨h1, by decide, ⟨_, hrec, rfl, rfl, rfl, rfl, rfl⟩⟩

theorem decodeSnippet_ok_ne_empty (c : Option String) (v : String)
    (h : decodeSnippetModel (.ok c) = .ok v) : v ≠ "" := by
  cases c with
  | none =>
    have hv : UNKNOWN = v := by injection h
    rw [← hv]
    decide
  | some content =>
    have hv : (if content = "" then UNKNOWN else toSingleWordUpper content) = v := by injection h
    rw [← hv]
    split
    · decide
    · exact toSingleWordUpper_ne_empty content

theorem decodeSnippet_ok_tswu_fix (c : Option String) (v : String)
    (h : decodeSnippetModel (.ok c) = .ok v) : toSingleWordUpper v = v := by
  cases c with
  | none =>
    have hv : UNKNOWN = v := by injection h
    rw [← hv]
    decide
  | some content =>
    have hv : (if content = "" then UNKNOWN else toSingleWordUpper content) = v := by injection h
    rw [← hv]
    split
    · decide
    · exact toSingleWordUpper_idem content

/-- C9: on a successful snippet-decode HTTP call the returned value is never
the empty string (missing, empty, or fully-stripped content becomes the
UNKNOWN sentinel and toSingleWordUpper never yields ""), so the || fallback
to the local resolver value never fires: the analysis result's
decoded_summary always equals the remote value — in particular a successful
remote UNKNOWN replaces a non-UNKNOWN local candidate. -/
theorem claim_C9_remote_overwrites :
    (∀ (resp : Except String (Option String)) (v : String),
      decodeSnippetModel resp = .ok v → v ≠ "") ∧
    (∀ s : String, toSingleWordUpper s ≠ "") ∧
    decodeSnippetModel (.ok (some "")) = .ok UNKNOWN ∧
    decodeSnippetModel (.ok (some "!?!")) = .ok UNKNOWN ∧
    (∀ (t : String) (c : Option String) (ar : Except String (Option RawDecode)),
      (extractScrambleContext t).found = true →
      ∀ v, decodeSnippetModel (.ok c) = .ok v →
        (analyzeExistingTranscript true ⟨.ok c, ar⟩ t).decodedSummary = v) := by
  refine ⟨?_, toSingleWordUpper_ne_empty, rfl, rfl, ?_⟩
  · intro resp v h
    cases resp with
    | error e => cases h
    | ok c => exact decodeSnippet_ok_ne_empty c v h
  · intro t c ar hfound v hv
    have hvne : v ≠ "" := decodeSnippet_ok_ne_empty c v hv
    cases hctx : extractScrambleContext t with
    | mk sn fd =>
      rw [hctx] at hfound
      change fd = true at hfound
      subst hfound
      have hds : (analyzeExistingTranscript true ⟨.ok c, ar⟩ t).decodedSummary =
          toSingleWordUpper v := by
        simp only [analyzeExistingTranscript, hctx, hv, hvne, Bool.and_true, Bool.and_false,
          Bool.not_true, Bool.false_eq_true, if_false, if_true, ite_false, ite_true]
      exact hds.trans (decodeSnippet_ok_tswu_fix c v hv)

/-- C9 witness: with a TNT local candidate, a successful remote call whose
content is missing decodes to UNKNOWN and overwrites the local TNT. -/
theorem claim_C9_remote_overwrites_witness :
    (extractScrambleContext "the keyword today is T-N-T").found = true ∧
    extractHyphenLetters (extractScrambleContext "the keyword today is T-N-T").snippet =
      some "TNT" ∧
    localDecodeFromLetters "TNT" = "TNT" ∧
    decodeSnippetModel (.ok none) = .ok UNKNOWN ∧
    (analyzeExistingTranscript true ⟨.ok none, .ok none⟩
      "the keyword today is T-N-T").decodedSummary = UNKNOWN := by
  refine ⟨by decide, by decide, by decide, rfl, ?_⟩
  exact claim_C9_remote_overwrites.2.2.2.2 "the keyword today is T-N-T" none (.ok none)
    (by decide) UNKNOWN rfl

theorem enqueuedTasks_cons_enq {τ : Type} (t : τ) (es : List (QEvent τ)) :
    enqueuedTasks (QEvent.enq t :: es) = t :: enqueuedTasks es := rfl

theorem enqueuedTasks_cons_start {τ : Type} (t : τ) (es : List (QEvent τ)) :
    enqueuedTasks (QEvent.start t :: es) = enqueuedTasks es := rfl

theorem enqueuedTasks_cons_finish {τ : Type} (t : τ) (es : List (QEvent τ)) :
    enqueuedTasks (QEvent.finish t :: es) = enqueuedTasks es := rfl

theorem startedTasks_cons_enq {τ : Type} (t : τ) (es : List (QEvent τ)) :
    startedTasks (QEvent.enq t :: es) = startedTasks es := rfl

theorem startedTasks_cons_start {τ : Type} (t : τ) (es : List (QEvent τ)) :
    startedTasks (QEvent.start t :: es) = t :: startedTasks es := rfl

theorem startedTasks_cons_finish {τ : Type} (t : τ) (es : List (QEvent τ)) :
    startedTasks (QEvent.finish t :: es) = startedTasks es := rfl

theorem finishedTasks_cons_enq {τ : Type} (t : τ) (es : List (QEvent τ)) :
    finishedTasks (QEvent.enq t :: es) = finishedTasks es := rfl

theorem finishedTasks_cons_start {τ : Type} (t : τ) (es : List (QEvent τ)) :
    finishedTasks (QEvent.start t :: es) = finishedTasks es := rfl

theorem finishedTasks_cons_finish {τ : Type} (t : τ) (es : List (QEvent τ)) :
    finishedTasks (QEvent.finish t :: es) = t :: finishedTasks es := rfl

theorem qExec_append {τ : Type} [DecidableEq τ] (p q : List (QEvent τ)) (s : QState τ) :
    qExec s (p ++ q) = (qExec s p).bind (fun s2 => qExec s2 q) := by
  induction p generalizing s with
  | nil => simp [qExec]
  | cons e es ih =>
    rw [List.cons_append]
    simp only [qExec]
    cases qStep s e with
    | none => simp
    | some s2 => simp [ih]

theorem qExec_invariant {τ : Type} [DecidableEq τ] :
    ∀ (tr : List (QEvent τ)) (s0 s : QState τ), qExec s0 tr = some s →
      s0.pending ++ enqueuedTasks tr = startedTasks tr ++ s.pending ∧
      s0.running.toList ++ startedTasks tr = finishedTasks tr ++ s.running.toList := by
  intro tr
  induction tr with
  | nil =>
    intro s0 s h
    simp only [qExec, Option.some.injEq] at h
    subst h
    simp [enqueuedTasks, startedTasks, finishedTasks, List.filterMap_nil]
  | cons e es ih =>
    intro s0 s h
    rw [qExec] at h
    cases hstep : qStep s0 e with
    | none => rw [hstep] at h; cases h
    | some s1 =>
      rw [hstep] at h
      obtain ⟨ih1, ih2⟩ := ih s1 s h
      cases e with
      | enq t =>
        have hs1 : s1 = ⟨s0.pending ++ [t], s0.running⟩ := by
          simp only [qStep, Option.some.injEq] at hstep
          exact hstep.symm
        subst hs1
        refine ⟨?_, ?_⟩
        · rw [enqueuedTasks_cons_enq, startedTasks_cons_enq]
          simpa [List.append_assoc] using ih1
        · rw [startedTasks_cons_enq, finishedTasks_cons_enq]
          simpa using ih2
      | start t =>
        cases hr : s0.running with
        | some t0 => simp only [qStep, hr] at hstep; cases hstep
        | none =>
          cases hp : s0.pending with
          | nil => simp only [qStep, hr, hp] at hstep; cases hstep
          | cons t0 rest =>
            simp only [qStep, hr, hp] at hstep
            by_cases ht : t0 = t
            · rw [if_pos ht] at hstep
              have hs1 : s1 = ⟨rest, some t⟩ := by
                injection hstep with hh
                exact hh.symm
              subst hs1
              refine ⟨?_, ?_⟩
              · rw [← ht]
                simpa [enqueuedTasks_cons_start, startedTasks_cons_start]
                  using congrArg (List.cons t0) ih1
              · rw [← ht] at ih2 ⊢
                simpa [startedTasks_cons_start, finishedTasks_cons_start] using ih2
            · rw [if_neg ht] at hstep
              cases hstep
      | finish t =>
        cases hr : s0.running with
        | none => simp only [qStep, hr] at hstep; cases hstep
        | some t0 =>
          simp only [qStep, hr] at hstep
          by_cases ht : t0 = t
          · rw [if_pos ht] at hstep
            have hs1 : s1 = ⟨s0.pending, none⟩ := by
              injection hstep with hh
              exact hh.symm
            subst hs1
            refine ⟨?_, ?_⟩
            · simpa [enqueuedTasks_cons_finish, startedTasks_cons_finish] using ih1
            · rw [← ht]
              simpa [startedTasks_cons_finish, finishedTasks_cons_finish]
                using congrArg (List.cons t0) ih2
          · rw [if_neg ht] at hstep
            cases hstep

/-- C3: the in-process queue is FIFO with at most one task in flight: along
every valid event trace from the empty queue, and at every prefix of it,
the started tasks are exactly a prefix of the enqueued tasks in enqueue
order (FIFO), and the started tasks are the finished tasks followed by the
at-most-one currently running task — so a later task never starts before
every earlier task's work has finished, whether it resolved or rejected. -/
theorem claim_C3_queue_fifo :
    ∀ (τ : Type) [DecidableEq τ] (tr : List (QEvent τ)) (s : QState τ),
      qExec qInit tr = some s →
      ∀ (p q : List (QEvent τ)), tr = p ++ q →
        ∃ sp, qExec qInit p = some sp ∧
          enqueuedTasks p = startedTasks p ++ sp.pending ∧
          startedTasks p = finishedTasks p ++ sp.running.toList ∧
          sp.running.toList.length ≤ 1 := by
  intro τ _inst tr s h p q hpq
  subst hpq
  rw [qExec_append] at h
  cases hp : qExec qInit p with
  | none => rw [hp] at h; cases h
  | some sp =>
    have hinv := qExec_invariant p qInit sp hp
    refine ⟨sp, rfl, ?_, ?_, ?_⟩
    · have h1 := hinv.1
      simpa [qInit] using h1
    · have h2 := hinv.2
      simpa [qInit] using h2
    · cases hr : sp.running <;> simp

/-- C3 witness: the trace enqueue A,B,C then run them, cut after
[enq A, enq B, enq C, start A, finish A, start B]. -/
theorem claim_C3_queue_fifo_witness :
    qExec qInit
      [QEvent.enq 1, QEvent.enq 2, QEvent.enq 3, QEvent.start 1, QEvent.finish 1,
       QEvent.start 2, QEvent.finish 2, QEvent.start 3, QEvent.finish 3] =
      some ⟨([] : List Nat), none⟩ ∧
    ∃ sp, qExec qInit
        [QEvent.enq 1, QEvent.enq 2, QEvent.enq 3, QEvent.start 1, QEvent.finish 1,
         QEvent.start 2] = some sp ∧
      enqueuedTasks [QEvent.enq 1, QEvent.enq 2, QEvent.enq 3, QEvent.start 1, QEvent.finish 1,
         QEvent.start 2] =
        startedTasks [QEvent.enq 1, QEvent.enq 2, QEvent.enq 3, QEvent.start 1, QEvent.finish 1,
         QEvent.start 2] ++ sp.pending ∧
      startedTasks [QEvent.enq 1, QEvent.enq 2, QEvent.enq 3, QEvent.start 1, QEvent.finish 1,
         QEvent.start 2] =
        finishedTasks [QEvent.enq 1, QEvent.enq 2, QEvent.enq 3, QEvent.start 1, QEvent.finish 1,
         QEvent.start 2] ++ sp.running.toList ∧
      sp.running.toList.length ≤ 1 := by
  refine ⟨by decide, ?_⟩
  exact claim_C3_queue_fifo Nat
    [QEvent.enq 1, QEvent.enq 2, QEvent.enq 3, QEvent.start 1, QEvent.finish 1,
     QEvent.start 2, QEvent.finish 2, QEvent.start 3, QEvent.finish 3]
    ⟨[], none⟩ (by decide)
    [QEvent.enq 1, QEvent.enq 2, QEvent.enq 3, QEvent.start 1, QEvent.finish 1, QEvent.start 2]
    [QEvent.finish 2, QEvent.start 3, QEvent.finish 3] rfl

theorem pairsChars_append (a b : List (Char × Char)) :
    pairsChars (a ++ b) = pairsChars a ++ pairsChars b := by
  induction a with
  | nil => rfl
  | cons p ps ih =>
    cases p with
    | mk s c => simp [pairsChars, ih]

theorem chainPairs_sound (cs : List Char) :
    cs = pairsChars (chainPairs cs).1 ++ (chainPairs cs).2 ∧ validPairs (chainPairs cs).1 := by
  induction cs using chainPairs.induct with
  | case1 s c rest hsep ps r hps ih =>
    rw [chainPairs]
    rw [if_pos hsep, hps]
    obtain ⟨ih1, ih2⟩ := ih
    rw [hps] at ih1 ih2
    constructor
    · simp only [pairsChars, List.cons_append]
      rw [← ih1]
    · intro p hp
      rcases List.mem_cons.mp hp with rfl | hmem
      · exact ⟨(Bool.and_eq_true _ _).mp hsep |>.1, (Bool.and_eq_true _ _).mp hsep |>.2⟩
      · exact ih2 p hmem
  | case2 s c rest hsep =>
    rw [chainPairs, if_neg hsep]
    exact ⟨rfl, by intro p hp; cases hp⟩
  | case3 cs h =>
    rw [chainPairs]
    · exact ⟨rfl, by intro p hp; cases hp⟩
    · exact h

theorem chainPairs_prefix {ps : List (Char × Char)} (hv : validPairs ps) (r : List Char) :
    chainPairs (pairsChars ps ++ r) = (ps ++ (chainPairs r).1, (chainPairs r).2) := by
  induction ps with
  | nil => simp [pairsChars]
  | cons p ps ih =>
    cases p with
    | mk s c =>
      have hsc := hv (s, c) (by simp)
      have hvps : validPairs ps := fun q hq => hv q (List.mem_cons_of_mem _ hq)
      simp only [pairsChars, List.cons_append]
      rw [chainPairs]
      rw [if_pos (by rw [hsc.1, hsc.2]; rfl)]
      rw [ih hvps]

theorem hyphenMatchAt_eq (c : Char) (rest : List Char) :
    hyphenMatchAt c rest =
      if decide (2 ≤ (chainPairs rest).1.length) && boundaryAfterOk (chainPairs rest).2 then
        some (c :: pairsChars (chainPairs rest).1)
      else if decide (3 ≤ (chainPairs rest).1.length) then
        some (c :: pairsChars (chainPairs rest).1.dropLast)
      else none := rfl

theorem filter_alpha_pairsChars {ps : List (Char × Char)} (hv : validPairs ps) :
    (pairsChars ps).filter Char.isAlpha = ps.map Prod.snd := by
  induction ps with
  | nil => rfl
  | cons p ps ih =>
    cases p with
    | mk s c =>
      have hsc := hv (s, c) (by simp)
      have hvps : validPairs ps := fun q hq => hv q (List.mem_cons_of_mem _ hq)
      have hns : s.isAlpha = false := sep_not_alpha hsc.1
      simp [pairsChars, List.filter_cons, hns, hsc.2, ih hvps]

theorem hyphenMatchAt_sound {c : Char} {rest g : List Char}
    (h : hyphenMatchAt c rest = some g) :
    ∃ ps post, rest = pairsChars ps ++ post ∧ validPairs ps ∧ 2 ≤ ps.length ∧
      boundaryAfterOk post = true ∧ g = c :: pairsChars ps := by
  rw [hyphenMatchAt_eq] at h
  by_cases h1 : (decide (2 ≤ (chainPairs rest).1.length) &&
      boundaryAfterOk (chainPairs rest).2) = true
  · rw [if_pos h1] at h
    injection h with hg
    obtain ⟨hs, hv⟩ := chainPairs_sound rest
    refine ⟨(chainPairs rest).1, (chainPairs rest).2, hs, hv, ?_, ?_, hg.symm⟩
    · exact of_decide_eq_true ((Bool.and_eq_true _ _).mp h1).1
    · exact ((Bool.and_eq_true _ _).mp h1).2
  · rw [if_neg h1] at h
    by_cases h2 : decide (3 ≤ (chainPairs rest).1.length) = true
    · rw [if_pos h2] at h
      injection h with hg
      have h3 : 3 ≤ (chainPairs rest).1.length := of_decide_eq_true h2
      obtain ⟨hs, hv⟩ := chainPairs_sound rest
      have hne : (chainPairs rest).1 ≠ [] := by
        intro hnil
        rw [hnil] at h3
        simp at h3
      have hdl : (chainPairs rest).1.dropLast ++ [(chainPairs rest).1.getLast hne] =
          (chainPairs rest).1 := List.dropLast_append_getLast hne
      have hlastmem : (chainPairs rest).1.getLast hne ∈ (chainPairs rest).1 :=
        List.getLast_mem hne
      refine ⟨(chainPairs rest).1.dropLast,
        pairsChars [(chainPairs rest).1.getLast hne] ++ (chainPairs rest).2,
        ?_, ?_, ?_, ?_, hg.symm⟩
      · rw [← List.append_assoc, ← pairsChars_append, hdl]
        exact hs
      · intro p hp
        exact hv p ((List.dropLast_sublist _).subset hp)
      · rw [List.length_dropLast]
        omega
      · have hsep := (hv _ hlastmem).1
        cases hlast : (chainPairs rest).1.getLast hne with
        | mk s c2 =>
          rw [hlast] at hsep
          simp only [pairsChars, List.cons_append, List.nil_append, boundaryAfterOk]
          rw [sep_not_word hsep]
          rfl
    · rw [if_neg h2] at h
      cases h

theorem hyphenMatchAt_complete {c : Char} {ps : List (Char × Char)} {post : List Char}
    (hv : validPairs ps) (hlen : 2 ≤ ps.length) (hb : boundaryAfterOk post = true) :
    (hyphenMatchAt c (pairsChars ps ++ post)).isSome = true := by
  rw [hyphenMatchAt_eq, chainPairs_prefix hv post]
  simp only []
  by_cases hb2 : boundaryAfterOk (chainPairs post).2 = true
  · rw [if_pos]
    · rfl
    · refine (Bool.and_eq_true _ _).mpr ⟨decide_eq_true ?_, hb2⟩
      rw [List.length_append]
      omega
  · have hne : (chainPairs post).1 ≠ [] := by
      intro hnil
      obtain ⟨hs, _⟩ := chainPairs_sound post
      rw [hnil] at hs
      simp only [pairsChars, List.nil_append] at hs
      rw [← hs] at hb2
      exact hb2 hb
    rw [if_neg, if_pos]
    · rfl
    · refine decide_eq_true ?_
      rw [List.length_append]
      have : 1 ≤ (chainPairs post).1.length := by
        cases hcp : (chainPairs post).1 with
        | nil => exact absurd hcp hne
        | cons a l => simp
      omega
    · intro hcontra
      exact hb2 ((Bool.and_eq_true _ _).mp hcontra).2

theorem boundaryLeft_cons (prevW : Bool) (c0 : Char) (pre : List Char) :
    boundaryLeftOk prevW (c0 :: pre) = boundaryLeftOk (isWordChar c0) pre := by
  cases pre with
  | nil => rfl
  | cons x xs =>
    simp only [boundaryLeftOk, List.getLast?_cons_cons]
    cases hgl : (x :: xs).getLast? with
    | none => simp at hgl
    | some y => rfl

theorem scanExtract_sound :
    ∀ (cs : List Char) (prevW : Bool) (g : List Char), scanExtract prevW cs = some g →
      ∃ (pre : List Char) (c : Char) (r2 : List Char),
        cs = pre ++ c :: r2 ∧ boundaryLeftOk prevW pre = true ∧ c.isAlpha = true ∧
        hyphenMatchAt c r2 = some g ∧
        ∀ (pre2 : List Char) (c2 : Char) (r22 : List Char), cs = pre2 ++ c2 :: r22 →
          pre2.length < pre.length →
          ¬(boundaryLeftOk prevW pre2 = true ∧ c2.isAlpha = true ∧
            (hyphenMatchAt c2 r22).isSome = true) := by
  intro cs
  induction cs with
  | nil =>
    intro prevW g h
    rw [scanExtract] at h
    cases h
  | cons c0 rest0 ih =>
    intro prevW g h
    rw [scanExtract] at h
    cases hguard : (if !prevW && c0.isAlpha then hyphenMatchAt c0 rest0 else none) with
    | some g0 =>
      rw [hguard] at h
      injection h with hg
      subst hg
      by_cases hcond : (!prevW && c0.isAlpha) = true
      · rw [if_pos hcond] at hguard
        refine ⟨[], c0, rest0, rfl, ?_, ((Bool.and_eq_true _ _).mp hcond).2, hguard, ?_⟩
        · exact ((Bool.and_eq_true _ _).mp hcond).1
        · intro pre2 c2 r22 _ hlt
          simp at hlt
      · rw [if_neg hcond] at hguard
        cases hguard
    | none =>
      rw [hguard] at h
      obtain ⟨pre2x, c, r2, hdec, hbl, hca, hm, hmin⟩ := ih (isWordChar c0) g h
      refine ⟨c0 :: pre2x, c, r2, by rw [hdec]; rfl, ?_, hca, hm, ?_⟩
      · rw [boundaryLeft_cons]
        exact hbl
      · intro pre2 c2 r22 hdec2 hlt hbad
        cases pre2 with
        | nil =>
          simp only [List.nil_append] at hdec2
          injection hdec2 with h1 h2
          subst h1
          subst h2
          obtain ⟨hb0, ha0, hs0⟩ := hbad
          have hcond : (!prevW && c0.isAlpha) = true :=
            (Bool.and_eq_true _ _).mpr ⟨hb0, ha0⟩
          rw [if_pos hcond] at hguard
          rw [hguard] at hs0
          cases hs0
        | cons c0x pre2x2 =>
          simp only [List.cons_append] at hdec2
          injection hdec2 with h1 h2
          subst h1
          refine hmin pre2x2 c2 r22 h2 (by simpa using hlt) ?_
          obtain ⟨hb2, ha2, hs2⟩ := hbad
          rw [boundaryLeft_cons] at hb2
          exact ⟨hb2, ha2, hs2⟩

theorem scanExtract_complete :
    ∀ (pre : List Char) (prevW : Bool) (c : Char) (r2 : List Char),
      boundaryLeftOk prevW pre = true → c.isAlpha = true →
      (hyphenMatchAt c r2).isSome = true →
      (scanExtract prevW (pre ++ c :: r2)).isSome = true := by
  intro pre
  induction pre with
  | nil =>
    intro prevW c r2 hb hc hm
    have hcond : (!prevW && c.isAlpha) = true := (Bool.and_eq_true _ _).mpr ⟨hb, hc⟩
    cases hmm : hyphenMatchAt c r2 with
    | none =>
      rw [hmm] at hm
      cases hm
    | some g =>
      rw [List.nil_append, scanExtract, if_pos hcond, hmm]
      rfl
  | cons c0 pre2 ih =>
    intro prevW c r2 hb hc hm
    rw [boundaryLeft_cons] at hb
    have htail := ih (isWordChar c0) c r2 hb hc hm
    rw [List.cons_append, scanExtract]
    cases hguard : (if !prevW && c0.isAlpha then hyphenMatchAt c0 (pre2 ++ c :: r2) else none) with
    | some g => rfl
    | none => exact htail

theorem scan_letters_count {cs g : List Char} (h : scanExtract false cs = some g) :
    3 ≤ ((g.filter Char.isAlpha).map Char.toUpper).length := by
  obtain ⟨pre, c, r2, hdec, hbl, hca, hm, hmin⟩ := scanExtract_sound cs false g h
  obtain ⟨ps, post, hr, hv, hlen, hb, hg⟩ := hyphenMatchAt_sound hm
  rw [hg]
  simp [List.filter_cons, hca, filter_alpha_pairsChars hv]
  omega

/-- C7: extractHyphenLetters returns exactly the first (leftmost) run of at
least three single letters separated by hyphens or spaces, separators
stripped and uppercased, and null precisely when no such run exists; in
particular "A-B" gives null and "A-B-C" gives "ABC". -/
theorem claim_C7_extract_hyphen_letters :
    extractHyphenLetters "A-B" = none ∧
    extractHyphenLetters "A-B-C" = some "ABC" ∧
    ∀ text : String,
      ((extractHyphenLetters text = none) ↔ ¬ ∃ p grp, SpecRunAt text.data p grp) ∧
      (∀ l, extractHyphenLetters text = some l →
        ∃ p grp, SpecRunAt text.data p grp ∧
          l = ⟨(grp.filter Char.isAlpha).map Char.toUpper⟩ ∧
          ∀ (q : Nat) (grp2 : List Char), SpecRunAt text.data q grp2 → p ≤ q) := by
  have hsome : ∀ (text : String) (l : String), extractHyphenLetters text = some l →
      ∃ p grp, SpecRunAt text.data p grp ∧
        l = ⟨(grp.filter Char.isAlpha).map Char.toUpper⟩ ∧
        ∀ (q : Nat) (grp2 : List Char), SpecRunAt text.data q grp2 → p ≤ q := by
    intro text l hl
    cases hscan : scanExtract false text.data with
    | none =>
      have hnone : extractHyphenLetters text = none := by
        rw [extractHyphenLetters, hscan]
      rw [hnone] at hl
      cases hl
    | some g =>
      have hval : extractHyphenLetters text =
          (if decide (3 ≤ ((g.filter Char.isAlpha).map Char.toUpper).length) then
            some (⟨(g.filter Char.isAlpha).map Char.toUpper⟩ : String) else none) := by
        rw [extractHyphenLetters, hscan]
      have hcount := scan_letters_count hscan
      rw [hval, if_pos (decide_eq_true hcount)] at hl
      injection hl with hleq
      obtain ⟨pre, c, r2, hdec, hbl, hca, hm, hmin⟩ := scanExtract_sound _ _ _ hscan
      obtain ⟨ps, post, hr, hv, hlen, hb, hg⟩ := hyphenMatchAt_sound hm
      refine ⟨pre.length, c :: pairsChars ps, ?_, ?_, ?_⟩
      · refine ⟨pre, post, c, ps, ?_, rfl, rfl, hca, hlen, hv, hbl, hb⟩
        rw [hdec, hr]
        simp [List.cons_append, List.append_assoc]
      · rw [← hleq, hg]
      · intro q grp2 hrun
        obtain ⟨pre2, post2, c2, ps2, hdec2, hlen2, hgrp2, hca2, hlen2b, hv2, hbl2, hb2⟩ := hrun
        by_contra hqp
        push_neg at hqp
        have hsome2 : (hyphenMatchAt c2 (pairsChars ps2 ++ post2)).isSome = true :=
          hyphenMatchAt_complete hv2 hlen2b hb2
        refine hmin pre2 c2 (pairsChars ps2 ++ post2) ?_ ?_ ⟨hbl2, hca2, hsome2⟩
        · rw [hdec2, hgrp2]
          simp [List.cons_append, List.append_assoc]
        · rw [hlen2]
          exact hqp
  refine ⟨by decide, by decide, fun text => ⟨⟨?_, ?_⟩, hsome text⟩⟩
  · intro hnone hex
    obtain ⟨p, grp, hrun⟩ := hex
    obtain ⟨pre2, post2, c2, ps2, hdec2, hlen2, hgrp2, hca2, hlen2b, hv2, hbl2, hb2⟩ := hrun
    have hsome2 : (hyphenMatchAt c2 (pairsChars ps2 ++ post2)).isSome = true :=
      hyphenMatchAt_complete hv2 hlen2b hb2
    have hscan2 := scanExtract_complete pre2 false c2 (pairsChars ps2 ++ post2) hbl2 hca2 hsome2
    have hdec3 : text.data = pre2 ++ c2 :: (pairsChars ps2 ++ post2) := by
      rw [hdec2, hgrp2]
      simp [List.cons_append, List.append_assoc]
    rw [← hdec3] at hscan2
    cases hscan : scanExtract false text.data with
    | none =>
      rw [hscan] at hscan2
      cases hscan2
    | some g =>
      have hval : extractHyphenLetters text =
          (if decide (3 ≤ ((g.filter Char.isAlpha).map Char.toUpper).length) then
            some (⟨(g.filter Char.isAlpha).map Char.toUpper⟩ : String) else none) := by
        rw [extractHyphenLetters, hscan]
      rw [hval, if_pos (decide_eq_true (scan_letters_count hscan))] at hnone
      cases hnone
  · intro hno
    cases hx : extractHyphenLetters text with
    | none => rfl
    | some l =>
      obtain ⟨p, grp, hrun, _, _⟩ := hsome text l hx
      exact absurd ⟨p, grp, hrun⟩ hno

/-- C7 witness: "A-B-C" yields "ABC" and witnesses a leftmost run;
"A-B" yields null and admits no run of three letters. -/
theorem claim_C7_extract_hyphen_letters_witness :
    extractHyphenLetters "A-B-C" = some "ABC" ∧
    (∃ p grp, SpecRunAt "A-B-C".data p grp ∧
      ("ABC" : String) = ⟨(grp.filter Char.isAlpha).map Char.toUpper⟩ ∧
      ∀ (q : Nat) (grp2 : List Char), SpecRunAt "A-B-C".data q grp2 → p ≤ q) ∧
    extractHyphenLetters "A-B" = none ∧
    ¬ ∃ p grp, SpecRunAt "A-B".data p grp := by
  have h := claim_C7_extract_hyphen_letters
  have h3 := (h.2.2 "A-B-C").2 "ABC" (by decide)
  have h4 := ((h.2.2 "A-B").1).mp (by decide)
  exact ⟨h.2.1, h3, h.1, h4⟩


end RadioScrapper
